import Mathlib

/-!
Shallow embedding of the retrieval core of the RAGchat repository.

Strings are modelled as lists of characters (`Str`).  JavaScript numbers are
modelled as exact real numbers together with the special IEEE values `NaN`,
`+Infinity` and `-Infinity` (type `JSNum`); signed zero and overflow are not
modelled, and none of the verified code paths depend on them.  Stateful
JavaScript classes are modelled by explicit state passing.
-/

abbrev Str := List Char

def strL (s : String) : Str := s.data

/-- Characters matched by the JavaScript regular-expression class `\s`
(restricted to the ASCII whitespace actually occurring in documents). -/
def isWsChar (c : Char) : Bool :=
  c = ' ' || c = '\t' || c = '\n' || c = '\r'

/-- State machine for JavaScript `String.prototype.split(/\s+/)`:
each maximal whitespace run is a separator; a separator at the start or the
end of the string produces an empty piece there, and the empty string yields
`[""]`.  `acc` is the current piece (reversed); `sep` records that the last
character seen was whitespace and the following piece has not started yet. -/
def splitWsGo : List Char → List Char → Bool → List (List Char)
  | [], acc, false => [acc.reverse]
  | [], acc, true => [acc.reverse, []]
  | c :: cs, acc, false =>
    if isWsChar c then splitWsGo cs acc true else splitWsGo cs (c :: acc) false
  | c :: cs, acc, true =>
    if isWsChar c then splitWsGo cs acc true
    else acc.reverse :: splitWsGo cs [c] false

/-- JavaScript `text.split(/\s+/)` (used by `bm25.ts` and by the window
chunker of the front-end revision). -/
def splitWs (cs : Str) : List Str := splitWsGo cs [] false

/-- JavaScript `text.split(' ')`: splits at every single space character,
keeping empty pieces (used by the character-length-bounded chunker of
`netlify/functions/api.ts`). -/
def splitSpGo : List Char → List Char → List (List Char)
  | [], acc => [acc.reverse]
  | c :: cs, acc =>
    if c = ' ' then acc.reverse :: splitSpGo cs [] else splitSpGo cs (c :: acc)

def splitSp (cs : Str) : List Str := splitSpGo cs []

/-- JavaScript `words.join(' ')`. -/
def joinSp : List Str → Str
  | [] => []
  | [w] => w
  | w :: ws => w ++ ' ' :: joinSp ws

/-- ECMAScript `Array.prototype.slice(start, end)` with possibly negative
or out-of-range integer arguments. -/
def jsSlice (l : List α) (start stop : ℤ) : List α :=
  let n : ℤ := l.length
  let s : ℤ := if start < 0 then max (n + start) 0 else min start n
  let e : ℤ := if stop < 0 then max (n + stop) 0 else min stop n
  (l.drop s.toNat).take (e - s).toNat

/-- The sliding-window `chunkText` of the front-end revision (`unnamed/part_005`
lines 667-677): `for (let i = 0; i < words.length; i += chunkSize - overlap)`
pushing `words.slice(i, i + chunkSize).join(' ')` each iteration.  The loop is
modelled with explicit fuel; `none` means the given number of iterations did
not reach loop exit. -/
def chunkTextF (words : List Str) (chunkSize overlap : ℤ) : ℕ → ℤ → Option (List Str)
  | 0, _ => none
  | fuel + 1, i =>
    if i < (words.length : ℤ) then
      match chunkTextF words chunkSize overlap fuel (i + (chunkSize - overlap)) with
      | none => none
      | some rest => some (joinSp (jsSlice words i (i + chunkSize)) :: rest)
    else some []

def chunkTextW (text : Str) (chunkSize overlap : ℤ) (fuel : ℕ) : Option (List Str) :=
  chunkTextF (splitWs text) chunkSize overlap fuel 0

/-- The window chunker diverges on this input: no amount of fuel reaches the
loop exit. -/
def chunkTextLoops (text : Str) (chunkSize overlap : ℤ) : Prop :=
  ∀ fuel : ℕ, chunkTextW text chunkSize overlap fuel = none

/-- The character-length-bounded `chunkText` of `netlify/functions/api.ts`
lines 61-79 (identical in `unnamed/part_002`): for each word, if
`chunk.join(' ').length + word.length + 1 > maxTokens` the current chunk is
flushed (possibly empty) and a fresh chunk is started; the word is then
appended; a final non-empty chunk is flushed after the loop. -/
def chunkTextGo (maxTokens : ℤ) : List Str → List Str → List Str → List Str
  | [], chunk, chunks =>
    if chunk.length > 0 then chunks ++ [joinSp chunk] else chunks
  | w :: ws, chunk, chunks =>
    if ((joinSp chunk).length + w.length + 1 : ℤ) > maxTokens then
      chunkTextGo maxTokens ws [w] (chunks ++ [joinSp chunk])
    else
      chunkTextGo maxTokens ws (chunk ++ [w]) chunks

def chunkTextChars (text : Str) (maxTokens : ℤ) : List Str :=
  chunkTextGo maxTokens (splitSp text) [] []

/-- The same loop tracking the word lists that make up each chunk, before they
are joined into strings (the code's `chunk : string[]` accumulator). -/
def chunkWordsGo (maxTokens : ℤ) : List Str → List Str → List (List Str) → List (List Str)
  | [], chunk, chunks =>
    if chunk.length > 0 then chunks ++ [chunk] else chunks
  | w :: ws, chunk, chunks =>
    if ((joinSp chunk).length + w.length + 1 : ℤ) > maxTokens then
      chunkWordsGo maxTokens ws [w] (chunks ++ [chunk])
    else
      chunkWordsGo maxTokens ws (chunk ++ [w]) chunks

def chunkWordsChars (text : Str) (maxTokens : ℤ) : List (List Str) :=
  chunkWordsGo maxTokens (splitSp text) [] []

/-- Prefix test used to implement substring containment. -/
def leadMatch : Str → Str → Bool
  | [], _ => true
  | _ :: _, [] => false
  | a :: as, b :: bs => a == b && leadMatch as bs

/-- JavaScript `hay.includes(needle)`: substring containment at any offset;
an empty needle is always contained. -/
def hasSub (needle : Str) : Str → Bool
  | [] => leadMatch needle []
  | c :: cs => leadMatch needle (c :: cs) || hasSub needle cs

/-- Number of documents `doc` with `doc.includes(term)` — the count used by
`BM25.inverseDocumentFrequency` (`bm25.ts` line 30). -/
def nContaining (docs : List Str) (term : Str) : ℕ :=
  (docs.filter (fun d => hasSub term d)).length

/-- Modelled from the spec: the count the specification prescribes for `n` —
the number of chunks containing the term at least once as a
whitespace-delimited word.  Declared only for comparison with the code's
substring-based `nContaining`. -/
def specWordContaining (docs : List Str) (term : Str) : ℕ :=
  (docs.filter (fun d => (splitWs d).contains term)).length

/-- Result documents returned by the external vector store, already scored and
ranked by it; the query handler only filters them. -/
structure RMeta where
  documentId : Str
deriving DecidableEq

structure RDoc where
  pageContent : Str
  metadata : RMeta
deriving DecidableEq

/-- Outcome of `JSON.parse(event.body)` in the query handler: either a parse
failure or a record with optional `query` and `documentId` fields. -/
inductive ParsedBody where
  | invalid : ParsedBody
  | valid (query : Option Str) (documentId : Option Str) : ParsedBody
deriving DecidableEq

inductive HandlerResp where
  | badJson : HandlerResp
  | missingQuery : HandlerResp
  | missingDocId : HandlerResp
  | ok (results : List RDoc) : HandlerResp
deriving DecidableEq

/-- Field access guarded by JavaScript truthiness: `!query` is true when the
field is absent or is the empty string. -/
def falsyStr : Option Str → Bool
  | none => true
  | some [] => true
  | some (_ :: _) => false

/-- The `/query` route handler of `netlify/functions/api.ts` lines 214-255
(identical in `unnamed/part_003`).  The call
`vectorStore.similaritySearch(query, 5)` is an external collaborator; its
already-scored result list is an input of the model.  The handler validates
the body and filters the scored results by `metadata.documentId`. -/
def queryHandler (body : ParsedBody) (searchResults : List RDoc) : HandlerResp :=
  match body with
  | ParsedBody.invalid => HandlerResp.badJson
  | ParsedBody.valid q d =>
    if falsyStr q then HandlerResp.missingQuery
    else if falsyStr d then HandlerResp.missingDocId
    else
      HandlerResp.ok
        (searchResults.filter
          (fun r => r.metadata.documentId == d.getD []))

noncomputable section

open Classical in
/-- JavaScript IEEE-754 double values, idealised: finite values are exact
reals; `nan`, `pinf`, `ninf` are the special values.  Signed zero and
overflow are not modelled. -/
inductive JSNum where
  | num : ℝ → JSNum
  | nan : JSNum
  | pinf : JSNum
  | ninf : JSNum

open Classical in
/-- JavaScript `+` on numbers. -/
def jadd : JSNum → JSNum → JSNum
  | JSNum.num x, JSNum.num y => JSNum.num (x + y)
  | JSNum.nan, _ => JSNum.nan
  | _, JSNum.nan => JSNum.nan
  | JSNum.pinf, JSNum.ninf => JSNum.nan
  | JSNum.ninf, JSNum.pinf => JSNum.nan
  | JSNum.pinf, _ => JSNum.pinf
  | _, JSNum.pinf => JSNum.pinf
  | JSNum.ninf, _ => JSNum.ninf
  | _, JSNum.ninf => JSNum.ninf

open Classical in
/-- JavaScript `*` on numbers. -/
def jmul : JSNum → JSNum → JSNum
  | JSNum.num x, JSNum.num y => JSNum.num (x * y)
  | JSNum.nan, _ => JSNum.nan
  | _, JSNum.nan => JSNum.nan
  | JSNum.pinf, JSNum.num y =>
    if y = 0 then JSNum.nan else if 0 < y then JSNum.pinf else JSNum.ninf
  | JSNum.num x, JSNum.pinf =>
    if x = 0 then JSNum.nan else if 0 < x then JSNum.pinf else JSNum.ninf
  | JSNum.ninf, JSNum.num y =>
    if y = 0 then JSNum.nan else if 0 < y then JSNum.ninf else JSNum.pinf
  | JSNum.num x, JSNum.ninf =>
    if x = 0 then JSNum.nan else if 0 < x then JSNum.ninf else JSNum.pinf
  | JSNum.pinf, JSNum.pinf => JSNum.pinf
  | JSNum.pinf, JSNum.ninf => JSNum.ninf
  | JSNum.ninf, JSNum.pinf => JSNum.ninf
  | JSNum.ninf, JSNum.ninf => JSNum.pinf

open Classical in
/-- JavaScript `/` on numbers: `0/0 = NaN`, `x/0 = ±Infinity` for `x ≠ 0`. -/
def jdiv : JSNum → JSNum → JSNum
  | JSNum.nan, _ => JSNum.nan
  | _, JSNum.nan => JSNum.nan
  | JSNum.num x, JSNum.num y =>
    if y = 0 then
      (if x = 0 then JSNum.nan else if 0 < x then JSNum.pinf else JSNum.ninf)
    else JSNum.num (x / y)
  | JSNum.num _, JSNum.pinf => JSNum.num 0
  | JSNum.num _, JSNum.ninf => JSNum.num 0
  | JSNum.pinf, JSNum.num y => if 0 ≤ y then JSNum.pinf else JSNum.ninf
  | JSNum.ninf, JSNum.num y => if 0 ≤ y then JSNum.ninf else JSNum.pinf
  | JSNum.pinf, _ => JSNum.nan
  | JSNum.ninf, _ => JSNum.nan

open Classical in
/-- JavaScript `x || 0` applied to the possibly-absent result of
`find(...)?.score`: `undefined`, `NaN` and `0` are falsy and give `0`. -/
def jsOr : Option JSNum → JSNum
  | none => JSNum.num 0
  | some (JSNum.num r) => if r = 0 then JSNum.num 0 else JSNum.num r
  | some JSNum.nan => JSNum.num 0
  | some JSNum.pinf => JSNum.pinf
  | some JSNum.ninf => JSNum.ninf

open Classical in
/-- Boolean comparator abstracting the `(a, b) => b.score - a.score` sort
callback: `jnumGeB a b` holds when `a` should precede `b` in descending
order.  Only the induced permutation is used by the theorems below. -/
def jnumGeB : JSNum → JSNum → Bool
  | JSNum.num x, JSNum.num y => decide (y ≤ x)
  | JSNum.pinf, _ => true
  | _, JSNum.pinf => false
  | _, JSNum.ninf => true
  | JSNum.ninf, _ => false
  | JSNum.nan, _ => true
  | _, JSNum.nan => true

/-- State of one `BM25` class instance (`src/utils/bm25.ts`): the constructor
parameters, the pushed documents, and the IDF cache (`Map` modelled as an
association list; `Map.set` on a missing key prepends). -/
structure BM25State where
  k1 : ℝ
  b : ℝ
  documents : List Str
  idfCache : List (Str × ℝ)

/-- `new BM25()` — constructor defaults `k1 = 1.5`, `b = 0.75`. -/
def defaultBM25 : BM25State := ⟨3 / 2, 3 / 4, [], []⟩

/-- `BM25.addDocument` (`bm25.ts` lines 14-16): pushes the document; the IDF
cache is left untouched. -/
def addDocument (st : BM25State) (doc : Str) : BM25State :=
  { st with documents := st.documents ++ [doc] }

/-- `BM25.termFrequency` (`bm25.ts` lines 18-22): occurrences of `term` among
the whitespace-split words of `doc`, divided by the word count.  The word
list of any string is non-empty, so the division is by a positive count. -/
def termFrequency (term doc : Str) : ℝ :=
  (((splitWs doc).filter (fun w => w == term)).length : ℝ) / ((splitWs doc).length : ℝ)

/-- The value `Math.log((docCount - containingDocs + 0.5) / (containingDocs + 0.5) + 1)`
computed on a cache miss (`bm25.ts` lines 29-31); `containingDocs` counts
documents with `doc.includes(term)` — substring containment. -/
def idfFresh (docs : List Str) (term : Str) : ℝ :=
  Real.log (((docs.length : ℝ) - (nContaining docs term : ℝ) + 1 / 2) /
    ((nContaining docs term : ℝ) + 1 / 2) + 1)

/-- `BM25.inverseDocumentFrequency` (`bm25.ts` lines 24-34): returns the
cached value if present, otherwise computes `idfFresh`, caches and returns
it.  The updated state is returned alongside the value. -/
def inverseDocumentFrequency (st : BM25State) (term : Str) : ℝ × BM25State :=
  match st.idfCache.lookup term with
  | some v => (v, st)
  | none =>
    (idfFresh st.documents term,
      { st with idfCache := (term, idfFresh st.documents term) :: st.idfCache })

/-- `const avgDocLength = this.documents.reduce((sum, doc) => sum + doc.split(/\s+/).length, 0) / this.documents.length`
(`bm25.ts` line 39) — `0 / 0 = NaN` on an empty corpus. -/
def scoreAvg (st : BM25State) : JSNum :=
  jdiv (JSNum.num (st.documents.foldl (fun s d => s + ((splitWs d).length : ℝ)) 0))
    (JSNum.num (st.documents.length : ℝ))

/-- One step of the `terms.reduce` in `BM25.score` (`bm25.ts` lines 41-45):
adds `idf * (tf * (k1 + 1)) / (tf + k1 * (1 - b + b * (docLength / avgDocLength)))`
to the accumulator, threading the IDF cache state. -/
def scoreStep (st : BM25State) (docLength : ℕ) (avgDocLength : JSNum) (doc : Str)
    (acc : JSNum × BM25State) (term : Str) : JSNum × BM25State :=
  let tf : ℝ := termFrequency term doc
  let r := inverseDocumentFrequency acc.2 term
  (jadd acc.1
    (jmul (JSNum.num r.1)
      (jdiv (JSNum.num (tf * (st.k1 + 1)))
        (jadd (JSNum.num tf)
          (jmul (JSNum.num st.k1)
            (jadd (JSNum.num (1 - st.b))
              (jmul (JSNum.num st.b)
                (jdiv (JSNum.num (docLength : ℝ)) avgDocLength))))))),
    r.2)

/-- `BM25.score` (`bm25.ts` lines 36-46): the per-term contributions are
accumulated by `reduce` starting from `0` over the whitespace-split query
terms. -/
def score (st : BM25State) (query doc : Str) : JSNum × BM25State :=
  (splitWs query).foldl (scoreStep st (splitWs doc).length (scoreAvg st) doc)
    (JSNum.num 0, st)

/-- `BM25.search` before sorting (`bm25.ts` lines 48-53): maps `score` over
the documents in order, threading the cache state. -/
def bm25SearchRaw (st : BM25State) (query : Str) : List (Str × JSNum) × BM25State :=
  st.documents.foldl
    (fun acc d =>
      let r := score acc.2 query d
      (acc.1 ++ [(d, r.1)], r.2))
    ([], st)

/-- `BM25.search`: the scored pairs sorted descending by score
(`.sort((a, b) => b.score - a.score)`). -/
def bm25Search (st : BM25State) (query : Str) : List (Str × JSNum) × BM25State :=
  ((bm25SearchRaw st query).1.mergeSort (fun p q => jnumGeB p.2 q.2),
    (bm25SearchRaw st query).2)

/-- Dot product `a.reduce((sum, ai, i) => sum + ai * b[i], 0)` for
equal-length vectors. -/
def dotp (a b : List ℝ) : ℝ := (List.zipWith (fun x y => x * y) a b).sum

/-- Sum of squares `v.reduce((sum, x) => sum + x * x, 0)`. -/
def sumsq (v : List ℝ) : ℝ := (v.map (fun x => x * x)).sum

/-- `Math.sqrt` of the sum of squares; the argument is non-negative, so the
result is a finite real. -/
def magnitude (v : List ℝ) : ℝ := Real.sqrt (sumsq v)

/-- `cosineSimilarity` (`unnamed/part_005` lines 660-665):
`dotProduct / (magnitudeA * magnitudeB)` with no guard against a zero
denominator. -/
def cosineSimilarity (a b : List ℝ) : JSNum :=
  jdiv (JSNum.num (dotp a b)) (jmul (JSNum.num (magnitude a)) (JSNum.num (magnitude b)))

/-- A document row returned by the external store in `searchDocuments`. -/
structure SDoc where
  id : ℕ
  content : Str
  embedding : List ℝ

/-- An entry of the combined score list. -/
structure Scored where
  id : ℕ
  content : Str
  scoreVal : JSNum

/-- `searchDocuments` (`unnamed/part_005` lines 627-657): cosine scores per
document, `bm25.documents` overwritten with the document contents, BM25
search, combination `embeddingScore + (find(...)?.score || 0)` per document,
and a final descending sort. -/
def searchDocuments (st : BM25State) (docs : List SDoc) (query : Str)
    (embedding : List ℝ) : List Scored × BM25State :=
  let embeddingScores : List JSNum :=
    docs.map (fun d => cosineSimilarity embedding d.embedding)
  let st1 : BM25State := { st with documents := docs.map (fun d => d.content) }
  let bm25Scores : List (Str × JSNum) := (bm25Search st1 query).1
  let combined : List Scored :=
    List.zipWith
      (fun d e =>
        { id := d.id, content := d.content,
          scoreVal :=
            jadd e (jsOr ((bm25Scores.find? (fun p => p.1 == d.content)).map
              (fun p => p.2))) })
      docs embeddingScores
  (combined.mergeSort (fun p q => jnumGeB p.scoreVal q.scoreVal),
    (bm25Search st1 query).2)

/-- The lexical component a document content receives in the combination step
of `searchDocuments`: the score found for it in the sorted BM25 result list,
with absent or falsy scores replaced by `0`. -/
def lexScoreOf (st : BM25State) (docs : List SDoc) (query : Str) (c : Str) : JSNum :=
  jsOr (((bm25Search { st with documents := docs.map (fun d => d.content) } query).1.find?
    (fun p => p.1 == c)).map (fun p => p.2))

/-- The combined entry `searchDocuments` produces for one document row. -/
def mergedEntry (st : BM25State) (docs : List SDoc) (query : Str)
    (embedding : List ℝ) (d : SDoc) : Scored :=
  { id := d.id, content := d.content,
    scoreVal := jadd (cosineSimilarity embedding d.embedding)
      (lexScoreOf st docs query d.content) }

end

theorem splitWsGo_ne_nil (cs : List Char) : ∀ acc sep, splitWsGo cs acc sep ≠ [] := by
  induction cs with
  | nil => intro acc sep; cases sep <;> simp [splitWsGo]
  | cons c cs ih =>
    intro acc sep
    cases sep <;> simp only [splitWsGo] <;> split
    · exact ih acc true
    · exact ih (c :: acc) false
    · exact ih acc true
    · simp

theorem splitWs_ne_nil (cs : Str) : splitWs cs ≠ [] := splitWsGo_ne_nil cs [] false

theorem splitWs_length_pos (cs : Str) : 1 ≤ (splitWs cs).length :=
  List.length_pos.mpr (splitWs_ne_nil cs)

theorem chunkTextF_stuck (words : List Str) (chunkSize overlap : ℤ)
    (hstep : chunkSize - overlap ≤ 0) (hw : 1 ≤ words.length) :
    ∀ (fuel : ℕ) (i : ℤ), i ≤ 0 → chunkTextF words chunkSize overlap fuel i = none := by
  intro fuel
  induction fuel with
  | zero => intro i _; rfl
  | succ f ih =>
    intro i hi
    have hlt : i < (words.length : ℤ) := by
      have : (1 : ℤ) ≤ (words.length : ℤ) := by exact_mod_cast hw
      omega
    simp only [chunkTextF, if_pos hlt]
    rw [ih (i + (chunkSize - overlap)) (by omega)]

theorem chunkTextF_exit (words : List Str) (chunkSize overlap : ℤ) (fuel : ℕ) (i : ℤ)
    (hf : 1 ≤ fuel) (hi : ¬ i < (words.length : ℤ)) :
    chunkTextF words chunkSize overlap fuel i = some [] := by
  cases fuel with
  | zero => omega
  | succ f => simp only [chunkTextF, if_neg hi]

theorem jsSlice_full (l : List α) (stop : ℤ) (h0 : 0 ≤ stop)
    (hl : (l.length : ℤ) ≤ stop) : jsSlice l 0 stop = l := by
  simp only [jsSlice]
  rw [if_neg (by omega : ¬ (0 : ℤ) < 0), if_neg (by omega : ¬ stop < 0)]
  have hmin0 : min (0 : ℤ) (l.length : ℤ) = 0 := by omega
  have hmin : min stop (l.length : ℤ) = (l.length : ℤ) := by omega
  rw [hmin0, hmin]
  simp

theorem chunkTextF_single (words : List Str) (chunkSize overlap : ℤ) (fuel : ℕ)
    (hov : 0 ≤ overlap) (hlt : overlap < chunkSize)
    (hw : 1 ≤ words.length) (hle : (words.length : ℤ) ≤ chunkSize - overlap)
    (hf : 2 ≤ fuel) :
    chunkTextF words chunkSize overlap fuel 0 = some [joinSp words] := by
  cases fuel with
  | zero => omega
  | succ f =>
    have h0 : (0 : ℤ) < (words.length : ℤ) := by exact_mod_cast hw
    simp only [chunkTextF, if_pos h0]
    rw [chunkTextF_exit words chunkSize overlap f (0 + (chunkSize - overlap))
      (by omega) (by omega)]
    rw [jsSlice_full words (0 + chunkSize) (by omega) (by omega)]

/-- C5: the spec claims `overlap ≥ windowSize` makes the chunker fail fast
with `InvalidConfiguration`.  The code performs no validation: with
`overlap = windowSize = 2` on `"a b c"` the loop index never advances past
the word count and the loop never terminates — the call diverges instead of
failing. -/
theorem chunker_overlap_divergence : chunkTextLoops (strL "a b c") 2 2 := by
  intro fuel
  exact chunkTextF_stuck (splitWs (strL "a b c")) 2 2 (by norm_num) (by decide) fuel 0 le_rfl

/-- C6 (amended): one single chunk equal to the whitespace-normalised input is
returned exactly when the word count is at most `windowSize - overlap` (not
`windowSize`): the first window already covers all words and the next start
index falls beyond them. -/
theorem chunker_single_window (text : Str) (chunkSize overlap : ℤ) (fuel : ℕ)
    (hov : 0 ≤ overlap) (hlt : overlap < chunkSize)
    (hle : ((splitWs text).length : ℤ) ≤ chunkSize - overlap) (hf : 2 ≤ fuel) :
    chunkTextW text chunkSize overlap fuel = some [joinSp (splitWs text)] :=
  chunkTextF_single (splitWs text) chunkSize overlap fuel hov hlt
    (splitWs_length_pos text) hle hf

theorem chunker_single_window_witness :
    chunkTextW (strL "a") 2 0 2 = some [joinSp (splitWs (strL "a"))] :=
  chunker_single_window (strL "a") 2 0 2 (by norm_num) (by norm_num)
    (by decide) (by norm_num)

/-- C6 counterexample: `"a b"` has word count `2 ≤ windowSize = 2` and the
parameters `overlap = 1 < 2` are valid, yet the code returns the two chunks
`["a b", "b"]`, not one chunk. -/
theorem chunker_single_window_counterexample :
    chunkTextW (strL "a b") 2 1 3 = some [strL "a b", strL "b"] ∧
    Option.map List.length (chunkTextW (strL "a b") 2 1 3) ≠ some 1 := by
  constructor
  · decide
  · decide

/-- C7 (amended): on the empty input the window chunker returns the
one-element sequence containing the empty chunk — `"".split(/\s+/)` yields
`[""]`, the loop runs once and pushes `""` — not the empty sequence. -/
theorem chunker_empty_input (chunkSize overlap : ℤ) (fuel : ℕ)
    (hov : 0 ≤ overlap) (hlt : overlap < chunkSize) (hf : 2 ≤ fuel) :
    chunkTextW [] chunkSize overlap fuel = some [[]] := by
  have h1 : ((([[]] : List Str).length : ℤ)) ≤ chunkSize - overlap := by
    simp only [List.length_singleton, Nat.cast_one]
    omega
  exact chunkTextF_single [[]] chunkSize overlap fuel hov hlt (by norm_num) h1 hf

theorem chunker_empty_input_witness : chunkTextW [] 1024 256 2 = some [[]] :=
  chunker_empty_input 1024 256 2 (by norm_num) (by norm_num) (by norm_num)

/-- C7 counterexample: with the default parameters the code returns `[""]` on
the empty input, not the empty sequence the claim states. -/
theorem chunker_empty_input_counterexample :
    chunkTextW [] 1024 256 2 = some [[]] ∧ chunkTextW [] 1024 256 2 ≠ some [] := by
  constructor
  · decide
  · decide

theorem chunkTextGo_eq_words (m : ℤ) :
    ∀ (ws chunk : List Str) (chunks : List (List Str)),
      chunkTextGo m ws chunk (chunks.map joinSp) = (chunkWordsGo m ws chunk chunks).map joinSp := by
  intro ws
  induction ws with
  | nil =>
    intro chunk chunks
    simp only [chunkTextGo, chunkWordsGo]
    split
    · simp
    · rfl
  | cons w ws ih =>
    intro chunk chunks
    simp only [chunkTextGo, chunkWordsGo]
    split
    · have : (chunks.map joinSp) ++ [joinSp chunk] = (chunks ++ [chunk]).map joinSp := by
        simp
      rw [this, ih [w] (chunks ++ [chunk])]
    · exact ih (chunk ++ [w]) chunks

theorem chunkWordsGo_join (m : ℤ) :
    ∀ (ws chunk : List Str) (chunks : List (List Str)),
      (chunkWordsGo m ws chunk chunks).flatten = chunks.flatten ++ chunk ++ ws := by
  intro ws
  induction ws with
  | nil =>
    intro chunk chunks
    simp only [chunkWordsGo]
    split
    · simp
    · rename_i h
      have : chunk = [] := by
        simpa using List.eq_nil_of_length_eq_zero (by omega)
      simp [this]
  | cons w ws ih =>
    intro chunk chunks
    simp only [chunkWordsGo]
    split
    · rw [ih [w] (chunks ++ [chunk])]
      simp
    · rw [ih (chunk ++ [w]) chunks]
      simp

/-- C10: the character-length-bounded chunker partitions the word sequence:
concatenating the per-chunk word lists in order gives back exactly the input
split on single spaces (no word dropped, duplicated or reordered), and the
returned chunk strings are exactly those word lists joined by single
spaces. -/
theorem chunker_chars_partition (text : Str) (maxTokens : ℤ) (_hm : 0 < maxTokens) :
    (chunkWordsChars text maxTokens).flatten = splitSp text ∧
    chunkTextChars text maxTokens = (chunkWordsChars text maxTokens).map joinSp := by
  constructor
  · simpa using chunkWordsGo_join maxTokens (splitSp text) [] []
  · simpa using chunkTextGo_eq_words maxTokens (splitSp text) [] []

theorem chunker_chars_partition_witness :
    0 < (5 : ℤ) ∧
    ((chunkWordsChars (strL "a b") 5).flatten = splitSp (strL "a b") ∧
      chunkTextChars (strL "a b") 5 = (chunkWordsChars (strL "a b") 5).map joinSp) :=
  ⟨by norm_num, chunker_chars_partition (strL "a b") 5 (by norm_num)⟩

/-- C9: with a well-formed body the query handler returns exactly the scored
results filtered by the supplied document identifier: every returned chunk
carries that identifier, and the output is a sublist of the already-scored
result list — the filter runs after scoring, never before. -/
theorem query_scope_filter (rs : List RDoc) (q d : Str) (hq : q ≠ []) (hd : d ≠ []) :
    queryHandler (ParsedBody.valid (some q) (some d)) rs =
      HandlerResp.ok (rs.filter (fun r => r.metadata.documentId == d)) ∧
    (∀ r ∈ rs.filter (fun r => r.metadata.documentId == d), r.metadata.documentId = d) ∧
    (rs.filter (fun r => r.metadata.documentId == d)).Sublist rs := by
  have hq' : falsyStr (some q) = false := by
    cases q with
    | nil => exact absurd rfl hq
    | cons a as => rfl
  have hd' : falsyStr (some d) = false := by
    cases d with
    | nil => exact absurd rfl hd
    | cons a as => rfl
  refine ⟨?_, ?_, List.filter_sublist rs⟩
  · simp [queryHandler, hq', hd']
  · intro r hr
    exact eq_of_beq (List.mem_filter.mp hr).2

def rdocS1 : RDoc := ⟨strL "c1", ⟨strL "s1"⟩⟩

def rdocS2 : RDoc := ⟨strL "c2", ⟨strL "s2"⟩⟩

theorem query_scope_filter_witness :
    queryHandler (ParsedBody.valid (some (strL "x")) (some (strL "s1"))) [rdocS1, rdocS2] =
      HandlerResp.ok ([rdocS1, rdocS2].filter (fun r => r.metadata.documentId == strL "s1")) ∧
    (∀ r ∈ [rdocS1, rdocS2].filter (fun r => r.metadata.documentId == strL "s1"),
      r.metadata.documentId = strL "s1") ∧
    ([rdocS1, rdocS2].filter (fun r => r.metadata.documentId == strL "s1")).Sublist
      [rdocS1, rdocS2] :=
  query_scope_filter [rdocS1, rdocS2] (strL "x") (strL "s1") (by decide) (by decide)

theorem jadd_nan_right (x : JSNum) : jadd x JSNum.nan = JSNum.nan := by
  cases x <;> rfl

theorem jadd_num_nan (r : ℝ) : jadd (JSNum.num r) JSNum.nan = JSNum.nan := rfl

theorem jmul_num_nan (r : ℝ) : jmul (JSNum.num r) JSNum.nan = JSNum.nan := rfl

theorem jdiv_num_nan (r : ℝ) : jdiv (JSNum.num r) JSNum.nan = JSNum.nan := rfl

theorem jdiv_zero_zero : jdiv (JSNum.num 0) (JSNum.num 0) = JSNum.nan := by
  simp only [jdiv]
  norm_num

theorem scoreAvg_nil (st : BM25State) (h : st.documents = []) : scoreAvg st = JSNum.nan := by
  simp only [scoreAvg, h, List.foldl_nil, List.length_nil, Nat.cast_zero]
  exact jdiv_zero_zero

theorem scoreStep_nan (st : BM25State) (dl : ℕ) (doc : Str) (acc : JSNum × BM25State)
    (t : Str) : (scoreStep st dl JSNum.nan doc acc t).1 = JSNum.nan := by
  simp only [scoreStep, jdiv_num_nan, jmul_num_nan, jadd_num_nan, jadd_nan_right]

theorem foldl_scoreStep_nan (st : BM25State) (dl : ℕ) (doc : Str) :
    ∀ (ts : List Str) (acc : JSNum × BM25State), acc.1 = JSNum.nan →
      (ts.foldl (scoreStep st dl JSNum.nan doc) acc).1 = JSNum.nan := by
  intro ts
  induction ts with
  | nil => intro acc h; exact h
  | cons t ts ih =>
    intro acc _
    rw [List.foldl_cons]
    exact ih _ (scoreStep_nan st dl doc acc t)

theorem score_empty_docs (st : BM25State) (q d : Str) (h : st.documents = []) :
    (score st q d).1 = JSNum.nan := by
  have havg : scoreAvg st = JSNum.nan := scoreAvg_nil st h
  simp only [score, havg]
  obtain ⟨t, ts, hts⟩ := List.exists_cons_of_ne_nil (splitWs_ne_nil q)
  rw [hts, List.foldl_cons]
  exact foldl_scoreStep_nan st _ d ts _ (scoreStep_nan st _ d _ t)

/-- C3 (amended): on an empty corpus `BM25.score` is `NaN`, not `0`: the
average document length is `0 / 0 = NaN` and it propagates through every
per-term contribution of the non-empty term list. -/
theorem bm25_score_empty_corpus_nan (st : BM25State) (q d : Str)
    (h : st.documents = []) : (score st q d).1 = JSNum.nan :=
  score_empty_docs st q d h

theorem bm25_score_empty_corpus_nan_witness :
    (score defaultBM25 (strL "cat") (strL "dog")).1 = JSNum.nan :=
  bm25_score_empty_corpus_nan defaultBM25 (strL "cat") (strL "dog") rfl

/-- C3 counterexample: on the empty corpus the score of a concrete query
against a concrete chunk is not `0` (it is `NaN`). -/
theorem bm25_score_empty_corpus_counterexample :
    (score defaultBM25 (strL "cat") (strL "dog")).1 ≠ JSNum.num 0 := by
  rw [score_empty_docs defaultBM25 (strL "cat") (strL "dog") rfl]
  intro hc
  exact JSNum.noConfusion hc

theorem idf_cache_miss (st : BM25State) (t : Str) (h : st.idfCache.lookup t = none) :
    (inverseDocumentFrequency st t).1 = idfFresh st.documents t := by
  simp only [inverseDocumentFrequency, h]

theorem nContaining_le_length (docs : List Str) (t : Str) :
    nContaining docs t ≤ docs.length :=
  List.length_filter_le _ _

theorem idfFresh_pos (docs : List Str) (t : Str) : 0 < idfFresh docs t := by
  have hn : (nContaining docs t : ℝ) ≤ (docs.length : ℝ) := by
    exact_mod_cast nContaining_le_length docs t
  have hnum : (0 : ℝ) < (docs.length : ℝ) - (nContaining docs t : ℝ) + 1 / 2 := by
    linarith
  have hden : (0 : ℝ) < (nContaining docs t : ℝ) + 1 / 2 := by positivity
  have harg : (1 : ℝ) <
      ((docs.length : ℝ) - (nContaining docs t : ℝ) + 1 / 2) /
        ((nContaining docs t : ℝ) + 1 / 2) + 1 := by
    have := div_pos hnum hden
    linarith
  simp only [idfFresh]
  exact Real.log_pos harg

/-- C1 (amended): on a cache miss the IDF is
`ln((N - n + 0.5) / (n + 0.5) + 1)` where `n` counts the indexed chunks
containing the term as a substring (`doc.includes(term)`), not as a
whitespace-delimited word; the value is not clamped, and since `n ≤ N` it is
always positive. -/
theorem bm25_idf_formula_substring (st : BM25State) (t : Str)
    (h : st.idfCache.lookup t = none) :
    (inverseDocumentFrequency st t).1 =
      Real.log (((st.documents.length : ℝ) - (nContaining st.documents t : ℝ) + 1 / 2) /
        ((nContaining st.documents t : ℝ) + 1 / 2) + 1) ∧
    0 < (inverseDocumentFrequency st t).1 := by
  rw [idf_cache_miss st t h]
  exact ⟨rfl, idfFresh_pos _ _⟩

theorem bm25_idf_formula_substring_witness :
    (inverseDocumentFrequency defaultBM25 (strL "cat")).1 =
      Real.log (((defaultBM25.documents.length : ℝ) -
          (nContaining defaultBM25.documents (strL "cat") : ℝ) + 1 / 2) /
        ((nContaining defaultBM25.documents (strL "cat") : ℝ) + 1 / 2) + 1) ∧
    0 < (inverseDocumentFrequency defaultBM25 (strL "cat")).1 :=
  bm25_idf_formula_substring defaultBM25 (strL "cat") rfl

noncomputable def fooDocState : BM25State := ⟨3 / 2, 3 / 4, [strL "foobar"], []⟩

/-- C1 counterexample: for the corpus `["foobar"]` and the term `"foo"` the
code counts `n = 1` (substring containment) and returns `ln(4/3)`, while the
claim's whitespace-delimited word count gives `n = 0` and `ln 4`. -/
theorem bm25_idf_word_count_counterexample :
    (inverseDocumentFrequency fooDocState (strL "foo")).1 ≠
      Real.log (((fooDocState.documents.length : ℝ) -
          (specWordContaining fooDocState.documents (strL "foo") : ℝ) + 1 / 2) /
        ((specWordContaining fooDocState.documents (strL "foo") : ℝ) + 1 / 2) + 1) := by
  have hsub : nContaining fooDocState.documents (strL "foo") = 1 := by decide
  have hspec : specWordContaining fooDocState.documents (strL "foo") = 0 := by decide
  have hlen : fooDocState.documents.length = 1 := rfl
  have e1 : ((fooDocState.documents.length : ℝ) -
      (nContaining fooDocState.documents (strL "foo") : ℝ) + 1 / 2) /
        ((nContaining fooDocState.documents (strL "foo") : ℝ) + 1 / 2) + 1 = 4 / 3 := by
    rw [hsub, hlen]
    norm_num
  have e2 : ((fooDocState.documents.length : ℝ) -
      (specWordContaining fooDocState.documents (strL "foo") : ℝ) + 1 / 2) /
        ((specWordContaining fooDocState.documents (strL "foo") : ℝ) + 1 / 2) + 1 = 4 := by
    rw [hspec, hlen]
    norm_num
  rw [idf_cache_miss fooDocState (strL "foo") rfl]
  simp only [idfFresh]
  rw [e1, e2]
  exact ne_of_lt (Real.log_lt_log (by norm_num) (by norm_num))

noncomputable def stCachedFoo : BM25State :=
  (inverseDocumentFrequency defaultBM25 (strL "foo")).2

noncomputable def stAfterAdd : BM25State := addDocument stCachedFoo (strL "foo")

/-- C2: the claim says a lookup after `addChunk` never serves a cached IDF
value computed before the term's document frequency changed.  The code never
invalidates the cache: looking `"foo"` up on the empty index caches `ln 2`;
after `addDocument("foo")` the next lookup still returns the cached `ln 2`,
not the value `ln(4/3)` computed from the updated corpus statistics. -/
theorem bm25_idf_stale_after_add :
    (inverseDocumentFrequency stAfterAdd (strL "foo")).1 = Real.log 2 ∧
    (inverseDocumentFrequency stAfterAdd (strL "foo")).1 ≠
      idfFresh stAfterAdd.documents (strL "foo") := by
  have hval : idfFresh [] (strL "foo") = Real.log 2 := by
    simp only [idfFresh, nContaining, List.filter_nil, List.length_nil, Nat.cast_zero]
    norm_num
  have hcache : stAfterAdd.idfCache = [(strL "foo", idfFresh [] (strL "foo"))] := rfl
  have hlook : (stAfterAdd.idfCache).lookup (strL "foo") =
      some (idfFresh [] (strL "foo")) := by
    rw [hcache]
    simp [List.lookup]
  have hcached : (inverseDocumentFrequency stAfterAdd (strL "foo")).1 =
      idfFresh [] (strL "foo") := by
    simp only [inverseDocumentFrequency, hlook]
  have hdocs : stAfterAdd.documents = [strL "foo"] := rfl
  have hfresh : idfFresh stAfterAdd.documents (strL "foo") = Real.log (4 / 3) := by
    have h1 : nContaining [strL "foo"] (strL "foo") = 1 := by decide
    rw [hdocs]
    simp only [idfFresh, h1, List.length_singleton, Nat.cast_one]
    norm_num
  refine ⟨by rw [hcached, hval], ?_⟩
  rw [hcached, hval, hfresh]
  exact (ne_of_lt (Real.log_lt_log (by norm_num) (by norm_num))).symm

theorem sumsq_nonneg (v : List ℝ) : 0 ≤ sumsq v := by
  simp only [sumsq]
  apply List.sum_nonneg
  intro x hx
  obtain ⟨y, _, rfl⟩ := List.mem_map.mp hx
  exact mul_self_nonneg y

theorem sumsq_eq_zero_mem (v : List ℝ) (h : sumsq v = 0) : ∀ x ∈ v, x = 0 := by
  induction v with
  | nil => simp
  | cons a l ih =>
    have hs : sumsq (a :: l) = a * a + sumsq l := by simp [sumsq]
    rw [hs] at h
    have h1 : 0 ≤ a * a := mul_self_nonneg a
    have h2 : 0 ≤ sumsq l := sumsq_nonneg l
    have ha : a * a = 0 := by linarith
    have hl : sumsq l = 0 := by linarith
    intro x hx
    rcases List.mem_cons.mp hx with rfl | hx'
    · exact mul_self_eq_zero.mp ha
    · exact ih hl x hx'

theorem dotp_zero_left (a b : List ℝ) (h : ∀ x ∈ a, x = 0) : dotp a b = 0 := by
  induction a generalizing b with
  | nil => simp [dotp]
  | cons x xs ih =>
    cases b with
    | nil => simp [dotp]
    | cons y ys =>
      have hx : x = 0 := h x (List.mem_cons_self x xs)
      have e : dotp (x :: xs) (y :: ys) = x * y + dotp xs ys := by simp [dotp]
      rw [e, hx, ih ys (fun z hz => h z (List.mem_cons_of_mem x hz))]
      ring

theorem dotp_zero_right (a b : List ℝ) (h : ∀ y ∈ b, y = 0) : dotp a b = 0 := by
  induction a generalizing b with
  | nil => simp [dotp]
  | cons x xs ih =>
    cases b with
    | nil => simp [dotp]
    | cons y ys =>
      have hy : y = 0 := h y (List.mem_cons_self y ys)
      have e : dotp (x :: xs) (y :: ys) = x * y + dotp xs ys := by simp [dotp]
      rw [e, hy, ih ys (fun z hz => h z (List.mem_cons_of_mem y hz))]
      ring

theorem magnitude_zero_sumsq (v : List ℝ) (h : magnitude v = 0) : sumsq v = 0 := by
  simp only [magnitude] at h
  exact (Real.sqrt_eq_zero (sumsq_nonneg v)).mp h

/-- C4 (amended): the code computes `dot / (‖a‖ * ‖b‖)` with no zero guard:
when the product of the norms is non-zero the similarity is that quotient,
but when either norm is `0` the numerator is also `0` and the result is
`NaN` (`0 / 0`), not `0`. -/
theorem cosine_no_zero_guard (a b : List ℝ) :
    (magnitude a * magnitude b ≠ 0 →
      cosineSimilarity a b = JSNum.num (dotp a b / (magnitude a * magnitude b))) ∧
    ((magnitude a = 0 ∨ magnitude b = 0) → cosineSimilarity a b = JSNum.nan) := by
  have hm : jmul (JSNum.num (magnitude a)) (JSNum.num (magnitude b)) =
      JSNum.num (magnitude a * magnitude b) := rfl
  constructor
  · intro h
    simp only [cosineSimilarity]
    rw [hm]
    simp only [jdiv]
    rw [if_neg h]
  · intro h
    have hd : dotp a b = 0 := by
      rcases h with ha | hb
      · exact dotp_zero_left a b (sumsq_eq_zero_mem a (magnitude_zero_sumsq a ha))
      · exact dotp_zero_right a b (sumsq_eq_zero_mem b (magnitude_zero_sumsq b hb))
    have hz : magnitude a * magnitude b = 0 := by
      rcases h with ha | hb
      · rw [ha, zero_mul]
      · rw [hb, mul_zero]
    simp only [cosineSimilarity]
    rw [hm, hd, hz]
    exact jdiv_zero_zero

theorem cosine_no_zero_guard_witness :
    cosineSimilarity [(1 : ℝ)] [(1 : ℝ)] =
      JSNum.num (dotp [(1 : ℝ)] [(1 : ℝ)] / (magnitude [(1 : ℝ)] * magnitude [(1 : ℝ)])) :=
  (cosine_no_zero_guard [(1 : ℝ)] [(1 : ℝ)]).1 (by
    have h1 : magnitude [(1 : ℝ)] = 1 := by
      simp [magnitude, sumsq]
    rw [h1]
    norm_num)

/-- C4 counterexample: against the zero vector the code returns `NaN`
(`0 / 0`), not the `0` the claim states. -/
theorem cosine_zero_norm_counterexample :
    cosineSimilarity [(1 : ℝ)] [(0 : ℝ)] = JSNum.nan ∧
    cosineSimilarity [(1 : ℝ)] [(0 : ℝ)] ≠ JSNum.num 0 := by
  have hd : dotp [(1 : ℝ)] [(0 : ℝ)] = 0 := by simp [dotp]
  have hm0 : magnitude [(0 : ℝ)] = 0 := by simp [magnitude, sumsq]
  have he : cosineSimilarity [(1 : ℝ)] [(0 : ℝ)] = JSNum.nan := by
    simp only [cosineSimilarity]
    have hmm : jmul (JSNum.num (magnitude [(1 : ℝ)])) (JSNum.num (magnitude [(0 : ℝ)])) =
        JSNum.num (magnitude [(1 : ℝ)] * magnitude [(0 : ℝ)]) := rfl
    rw [hmm, hd, hm0, mul_zero]
    exact jdiv_zero_zero
  refine ⟨he, ?_⟩
  rw [he]
  intro hc
  exact JSNum.noConfusion hc

theorem zipWith_map_self {α β γ : Type} (f : α → β → γ) (g : α → β) (l : List α) :
    List.zipWith f l (l.map g) = l.map (fun a => f a (g a)) := by
  induction l with
  | nil => rfl
  | cons x xs ih => simp [ih]

/-- C8: the merged result of `searchDocuments` is a permutation of one
combined entry per corpus document — each chunk appears exactly once, with
`combinedScore = vectorScore + lexicalScore` where an absent (or falsy)
lexical entry contributes `0` — and in particular the multiset of returned
ids is exactly the multiset of corpus ids. -/
theorem hybrid_merge_complete (st : BM25State) (docs : List SDoc) (query : Str)
    (v : List ℝ) :
    ((searchDocuments st docs query v).1).Perm (docs.map (mergedEntry st docs query v)) ∧
    (((searchDocuments st docs query v).1).map (fun s => s.id)).Perm
      (docs.map (fun d => d.id)) := by
  have h1 : (searchDocuments st docs query v).1 =
      (docs.map (mergedEntry st docs query v)).mergeSort
        (fun p q => jnumGeB p.scoreVal q.scoreVal) := by
    simp only [searchDocuments]
    rw [zipWith_map_self]
    rfl
  have h2 : ((searchDocuments st docs query v).1).Perm
      (docs.map (mergedEntry st docs query v)) := by
    rw [h1]
    exact List.mergeSort_perm _ _
  refine ⟨h2, ?_⟩
  have h3 : (docs.map (mergedEntry st docs query v)).map (fun s => s.id) =
      docs.map (fun d => d.id) := by
    simp [List.map_map, Function.comp, mergedEntry]
  have h4 := h2.map (fun s => s.id)
  rw [h3] at h4
  exact h4
